import Mathlib

/-!
Verification of the `site-builder` utility layer (`src/site-builder/src/util.rs`).

The development shallowly embeds the three algorithmic cores of the file:

* `id_to_base36` — the base-256 → base-36 positional conversion used to turn a
  32-byte object identifier into a display string.  The imperative loops of the
  Rust code are embedded as structurally recursive functions (`innerLoop`,
  `outerLoop`); the `usize` decrement `it -= 1`, which panics (debug) or wraps
  and then indexes out of bounds (release) when `it = 0`, is modelled by the
  `Option.none` result.  All arithmetic is on `Nat`; the Rust carries are
  bounded by `255 + 256 * 35 = 9215`, far below `usize` overflow, so `Nat`
  arithmetic coincides with the source's.
* `handle_pagination` / `handle_pagination_with_cursor` — the cursor-driven
  page-aggregation loop.  The `FnMut` closure is embedded as a function of the
  invocation index and the threaded cursor; the unbounded `while` loop is given
  explicit fuel (`none` = the loop has not terminated within the fuel).
* `sign_and_send_ptb`, `call_arg_from_shared_object_id`,
  `get_site_id_from_response` — the response/ownership checking logic, with the
  network capabilities (gas-price query, signing, execution, object lookup)
  passed in as `Except`-valued inputs.  `get_site_id_from_response` uses
  `.expect(...)` in the source, i.e. it panics instead of returning `Err`; the
  panic is modelled by `Option.none`.
-/

namespace WalrusSites

/-! ## Positional valuation of digit lists (big-endian) -/

/-- Big-endian value of a digit list in base `b`:
`digitsVal b [d₀, d₁, …] = ((0 * b + d₀) * b + d₁) * b + …`. -/
def digitsVal (b : Nat) (l : List Nat) : Nat :=
  l.foldl (fun acc d => acc * b + d) 0

theorem digitsVal_nil (b : Nat) : digitsVal b [] = 0 := rfl

theorem digitsVal_foldl (b : Nat) :
    ∀ (l : List Nat) (a : Nat),
      l.foldl (fun acc d => acc * b + d) a = a * b ^ l.length + digitsVal b l := by
  intro l
  induction l with
  | nil => intro a; simp [digitsVal]
  | cons x t ih =>
    intro a
    have hx : digitsVal b (x :: t) = x * b ^ t.length + digitsVal b t := by
      show List.foldl _ (0 * b + x) t = _
      rw [ih (0 * b + x)]
      ring_nf
    simp only [List.foldl_cons, List.length_cons]
    rw [ih (a * b + x), hx]
    ring

theorem digitsVal_cons (b x : Nat) (t : List Nat) :
    digitsVal b (x :: t) = x * b ^ t.length + digitsVal b t := by
  show List.foldl _ (0 * b + x) t = _
  rw [digitsVal_foldl b t (0 * b + x)]
  ring_nf

theorem digitsVal_append (b : Nat) (l₁ l₂ : List Nat) :
    digitsVal b (l₁ ++ l₂) = digitsVal b l₁ * b ^ l₂.length + digitsVal b l₂ := by
  unfold digitsVal
  rw [List.foldl_append]
  exact digitsVal_foldl b l₂ _

theorem digitsVal_singleton (b x : Nat) : digitsVal b [x] = x := by
  simp [digitsVal]

theorem digitsVal_lt (b : Nat) (_hb : 0 < b) :
    ∀ (l : List Nat), (∀ d ∈ l, d < b) → digitsVal b l < b ^ l.length := by
  intro l
  induction l with
  | nil => intro _; simp [digitsVal]
  | cons x t ih =>
    intro h
    have hx : x < b := h x (List.mem_cons_self x t)
    have ht : digitsVal b t < b ^ t.length :=
      ih (fun d hd => h d (List.mem_cons_of_mem x hd))
    rw [digitsVal_cons]
    calc x * b ^ t.length + digitsVal b t
        < x * b ^ t.length + b ^ t.length := by omega
      _ = (x + 1) * b ^ t.length := by ring
      _ ≤ b * b ^ t.length := by
          exact Nat.mul_le_mul_right _ (by omega)
      _ = b ^ (x :: t).length := by rw [List.length_cons]; ring

theorem digitsVal_eq_zero (b : Nat) :
    ∀ (l : List Nat), (∀ d ∈ l, d = 0) → digitsVal b l = 0 := by
  intro l
  induction l with
  | nil => intro _; rfl
  | cons x t ih =>
    intro h
    have hx : x = 0 := h x (List.mem_cons_self x t)
    have ht := ih (fun d hd => h d (List.mem_cons_of_mem x hd))
    rw [digitsVal_cons, hx, ht]
    ring

/-- Fixed-width digit strings are determined by their value. -/
theorem digitsVal_inj (b : Nat) :
    ∀ (l₁ l₂ : List Nat), l₁.length = l₂.length →
      (∀ d ∈ l₁, d < b) → (∀ d ∈ l₂, d < b) →
      digitsVal b l₁ = digitsVal b l₂ → l₁ = l₂ := by
  intro l₁
  induction l₁ with
  | nil =>
    intro l₂ hlen _ _ _
    cases l₂ with
    | nil => rfl
    | cons y u => simp at hlen
  | cons x t ih =>
    intro l₂ hlen h₁ h₂ hval
    cases l₂ with
    | nil => simp at hlen
    | cons y u =>
      have hlen' : t.length = u.length := by
        simpa using hlen
      have hb : 0 < b := by
        have hx : x < b := h₁ x (List.mem_cons_self x t)
        omega
      have ht : digitsVal b t < b ^ t.length :=
        digitsVal_lt b hb t (fun d hd => h₁ d (List.mem_cons_of_mem x hd))
      have hu : digitsVal b u < b ^ t.length := by
        rw [hlen']
        exact digitsVal_lt b hb u (fun d hd => h₂ d (List.mem_cons_of_mem y hd))
      rw [digitsVal_cons, digitsVal_cons, ← hlen'] at hval
      have hk : 0 < b ^ t.length := Nat.pos_pow_of_pos _ hb
      have hxy : x = y := by
        have e₁ : (x * b ^ t.length + digitsVal b t) / b ^ t.length = x := by
          rw [Nat.mul_comm x, Nat.mul_add_div hk, Nat.div_eq_of_lt ht]
          omega
        have e₂ : (y * b ^ t.length + digitsVal b u) / b ^ t.length = y := by
          rw [Nat.mul_comm y, Nat.mul_add_div hk, Nat.div_eq_of_lt hu]
          omega
        rw [← e₁, ← e₂, hval]
      subst hxy
      have htu : digitsVal b t = digitsVal b u := by omega
      rw [ih u hlen' (fun d hd => h₁ d (List.mem_cons_of_mem x hd))
        (fun d hd => h₂ d (List.mem_cons_of_mem x hd)) htu]

/-! ## List index helpers used by the buffer manipulation -/

theorem getD_set_ne (a : Nat) :
    ∀ (l : List Nat) (n m : Nat), n ≠ m → (l.set n a).getD m 0 = l.getD m 0 := by
  intro l
  induction l with
  | nil => intro n m _; simp
  | cons x t ih =>
    intro n m hnm
    cases n with
    | zero =>
      cases m with
      | zero => omega
      | succ m' => simp [List.set, List.getD]
    | succ n' =>
      cases m with
      | zero => simp [List.set, List.getD]
      | succ m' =>
        have := ih n' m' (by omega)
        simpa [List.set, List.getD] using this

theorem take_set_same (a : Nat) :
    ∀ (l : List Nat) (n : Nat), (l.set n a).take n = l.take n := by
  intro l
  induction l with
  | nil => intro n; simp
  | cons x t ih =>
    intro n
    cases n with
    | zero => simp
    | succ n' => simp [List.set, List.take, ih n']

theorem drop_set_cons (a : Nat) :
    ∀ (l : List Nat) (n : Nat), n < l.length →
      (l.set n a).drop n = a :: l.drop (n + 1) := by
  intro l
  induction l with
  | nil => intro n h; simp at h
  | cons x t ih =>
    intro n h
    cases n with
    | zero => simp
    | succ n' =>
      have hn : n' < t.length := by simpa using h
      simpa [List.set] using ih n' hn

theorem take_succ_getD :
    ∀ (l : List Nat) (n : Nat), n < l.length →
      l.take (n + 1) = l.take n ++ [l.getD n 0] := by
  intro l
  induction l with
  | nil => intro n h; simp at h
  | cons x t ih =>
    intro n h
    cases n with
    | zero => simp [List.getD]
    | succ n' =>
      have hn : n' < t.length := by simpa using h
      simp only [List.take_succ_cons, List.getD_cons_succ, List.cons_append, ih n' hn]

theorem take_all_zero :
    ∀ (l : List Nat) (n : Nat), (∀ j, j < n → l.getD j 0 = 0) →
      ∀ d ∈ l.take n, d = 0 := by
  intro l
  induction l with
  | nil => intro n _ d hd; simp at hd
  | cons x t ih =>
    intro n h d hd
    cases n with
    | zero => simp at hd
    | succ n' =>
      simp only [List.take, List.mem_cons] at hd
      rcases hd with hd | hd
      · have := h 0 (by omega)
        simpa [List.getD, hd] using this
      · exact ih n' (fun j hj => by simpa [List.getD] using h (j + 1) (by omega)) d hd

theorem drop_length_takeWhile (p : Nat → Bool) :
    ∀ (l : List Nat), l.drop (l.takeWhile p).length = l.dropWhile p := by
  intro l
  induction l with
  | nil => rfl
  | cons x t ih =>
    by_cases hx : p x
    · simp [List.takeWhile, List.dropWhile, hx, ih]
    · simp [List.takeWhile, List.dropWhile, hx]

theorem head_dropWhile_not (p : Nat → Bool) :
    ∀ (l : List Nat) (a : Nat), (l.dropWhile p).head? = some a → p a = false := by
  intro l
  induction l with
  | nil => intro a h; simp at h
  | cons x t ih =>
    intro a h
    by_cases hx : p x
    · exact ih a (by simpa [List.dropWhile, hx] using h)
    · simp only [List.dropWhile, hx, List.head?] at h
      cases h
      simpa using hx

theorem mem_dropWhile (p : Nat → Bool) :
    ∀ (l : List Nat) (d : Nat), d ∈ l.dropWhile p → d ∈ l := by
  intro l
  induction l with
  | nil => intro d h; simp at h
  | cons x t ih =>
    intro d h
    by_cases hx : p x
    · simp only [List.dropWhile, hx] at h
      exact List.mem_cons_of_mem x (ih d h)
    · simpa [List.dropWhile, hx] using h

theorem digitsVal_dropWhile_zero :
    ∀ (l : List Nat), digitsVal 36 (l.dropWhile (fun v => v == 0)) = digitsVal 36 l := by
  intro l
  induction l with
  | nil => rfl
  | cons x t ih =>
    by_cases hx : x = 0
    · subst hx
      rw [digitsVal_cons]
      simpa [List.dropWhile] using ih
    · have hx' : (x == 0) = false := by simpa using hx
      simp [List.dropWhile, hx']

/-! ## `id_to_base36` (src/site-builder/src/util.rs, lines 130–158)

The Rust inner loop

```
while it > high || carry != 0 {
    carry += 256 * encoding[it];
    encoding[it] = carry % base;
    carry /= base;
    it -= 1;
}
```

is embedded as `innerLoop it carry encoding high`, structurally recursive on
`it`.  When the body runs with `it = 0` (that is, `carry ≠ 0` there), the Rust
`it -= 1` panics in debug builds, and in release builds wraps to `usize::MAX`
so the next `encoding[it]` access panics; both are modelled by `none`. -/

def innerLoop : Nat → Nat → List Nat → Nat → Option (List Nat × Nat)
  | 0, carry, encoding, _high =>
    if carry ≠ 0 then none else some (encoding, 0)
  | it + 1, carry, encoding, high =>
    if it + 1 > high ∨ carry ≠ 0 then
      innerLoop it ((carry + 256 * encoding.getD (it + 1) 0) / 36)
        (encoding.set (it + 1) ((carry + 256 * encoding.getD (it + 1) 0) % 36)) high
    else
      some (encoding, it + 1)

/-- The `for digit in &source` loop: one `innerLoop` run per input byte,
re-starting at `it = size - 1` and updating `high` to where the inner loop
stopped. -/
def outerLoop (size : Nat) : List Nat → List Nat → Nat → Option (List Nat × Nat)
  | [], encoding, high => some (encoding, high)
  | digit :: rest, encoding, high =>
    match innerLoop (size - 1) digit encoding high with
    | none => none
    | some (encoding', high') => outerLoop size rest encoding' high'

/-- The digit-level part of `id_to_base36`: buffer of `2 × len` zeroes,
the double loop, then `skip` leading zero digits
(`encoding.iter().take_while(|v| **v == 0).count()`). -/
def id_to_base36_digits (source : List Nat) : Option (List Nat) :=
  let size := source.length * 2
  match outerLoop size source (List.replicate size 0) (size - 1) with
  | none => none
  | some (encoding, _) =>
    some (encoding.drop (encoding.takeWhile (fun v => v == 0)).length)

/-- `const BASE36: &[u8] = "0123456789abcdefghijklmnopqrstuvwxyz".as_bytes()`. -/
def BASE36 : List Char := "0123456789abcdefghijklmnopqrstuvwxyz".data

/-- `id_to_base36`, at the string level: the remaining digits are mapped
through the alphabet (`BASE36[c]`; the index is proved in bounds below, so the
`getD` default is never consulted) and collected into a string.  `none` models
a panic; the source's `Result` is otherwise always `Ok`. -/
def id_to_base36 (source : List Nat) : Option String :=
  match id_to_base36_digits source with
  | none => none
  | some digits => some (String.mk (digits.map (fun c => BASE36.getD c '0')))

/-- Big-endian base-256 value of the input bytes. -/
def bytesVal (source : List Nat) : Nat := digitsVal 256 source

/-- Value of a digit character under the 0–9a–z alphabet (its index). -/
def base36CharVal (c : Char) : Nat := BASE36.indexOf c

/-- A string read as a base-36 numeral over the 0–9a–z alphabet. -/
def strVal36 (s : String) : Nat := digitsVal 36 (s.data.map base36CharVal)

example : id_to_base36 (List.replicate 32 0) = some "" := by decide
example : id_to_base36 [0, 1] = some "1" := by decide
example : id_to_base36 [1, 0] = some "74" := by decide

/-! ## Correctness of the conversion loops -/

/-- The numeric value represented by an inner-loop state: the carry sits above
position `i`, positions `> i` hold already-reduced base-36 digits, and the
base-36 digits at positions `≤ i` are still to be multiplied by 256. -/
def encVal (carry : Nat) (encoding : List Nat) (i : Nat) : Nat :=
  carry * 36 ^ (encoding.length - 1 - i) + digitsVal 36 (encoding.drop (i + 1)) +
    256 * digitsVal 36 (encoding.take (i + 1)) * 36 ^ (encoding.length - 1 - i)

/-- One inner-loop body step (`carry += 256 * encoding[it]; encoding[it] =
carry % 36; carry /= 36`) preserves the represented value. -/
theorem encVal_step (carry : Nat) (encoding : List Nat) (it : Nat)
    (h : it + 1 < encoding.length) :
    encVal ((carry + 256 * encoding.getD (it + 1) 0) / 36)
        (encoding.set (it + 1) ((carry + 256 * encoding.getD (it + 1) 0) % 36)) it
      = encVal carry encoding (it + 1) := by
  have hlen2 :
      (encoding.set (it + 1) ((carry + 256 * encoding.getD (it + 1) 0) % 36)).length
        = encoding.length := by
    simp [List.length_set]
  unfold encVal
  rw [hlen2, take_set_same, drop_set_cons _ _ _ (by omega), digitsVal_cons,
    take_succ_getD encoding (it + 1) (by omega), digitsVal_append, digitsVal_singleton]
  simp only [List.length_drop, List.length_cons, List.length_nil]
  have he1 : encoding.length - 1 - it = (encoding.length - 1 - (it + 1)) + 1 := by omega
  have he2 : encoding.length - (it + 1 + 1) = encoding.length - 1 - (it + 1) := by omega
  rw [he1, he2, pow_succ, pow_one]
  have hdm : 36 * ((carry + 256 * encoding.getD (it + 1) 0) / 36) +
      (carry + 256 * encoding.getD (it + 1) 0) % 36
        = carry + 256 * encoding.getD (it + 1) 0 := Nat.div_add_mod _ 36
  have key :
      (36 * ((carry + 256 * encoding.getD (it + 1) 0) / 36) +
          (carry + 256 * encoding.getD (it + 1) 0) % 36) *
        36 ^ (encoding.length - 1 - (it + 1))
      = (carry + 256 * encoding.getD (it + 1) 0) *
        36 ^ (encoding.length - 1 - (it + 1)) := by
    rw [hdm]
  ring_nf at key ⊢
  omega

/-- Full correctness of the inner loop: provided the represented value fits in
`size - 1` base-36 digits, the loop terminates without the index underflow,
keeps every digit `< 36`, leaves positions `≤ it'` zero, and the final buffer
represents exactly the incoming value. -/
theorem innerLoop_spec :
    ∀ (it carry : Nat) (encoding : List Nat) (high : Nat),
      it < encoding.length →
      (∀ d ∈ encoding, d < 36) →
      (∀ j, j ≤ high → j ≤ it → encoding.getD j 0 = 0) →
      encVal carry encoding it < 36 ^ (encoding.length - 1) →
      ∃ encoding' it',
        innerLoop it carry encoding high = some (encoding', it') ∧
        encoding'.length = encoding.length ∧
        (∀ d ∈ encoding', d < 36) ∧
        it' ≤ it ∧
        (∀ j, j ≤ it' → encoding'.getD j 0 = 0) ∧
        digitsVal 36 encoding' = encVal carry encoding it := by
  intro it
  induction it with
  | zero =>
    intro carry encoding high hlt hdig hzero hbound
    have henc0 : encoding.getD 0 0 = 0 := hzero 0 (Nat.zero_le _) (Nat.le_refl 0)
    have hcarry : carry = 0 := by
      by_contra hc
      have h2 : 36 ^ (encoding.length - 1) ≤ carry * 36 ^ (encoding.length - 1) :=
        Nat.le_mul_of_pos_left _ (by omega)
      have h3 : carry * 36 ^ (encoding.length - 1 - 0) ≤ encVal carry encoding 0 := by
        unfold encVal
        omega
      simp only [Nat.sub_zero] at h3
      omega
    subst hcarry
    refine ⟨encoding, 0, by simp [innerLoop], rfl, hdig, Nat.le_refl 0, ?_, ?_⟩
    · intro j hj
      have hj0 : j = 0 := by omega
      rw [hj0]
      exact henc0
    · have hsplit := congrArg (digitsVal 36) (List.take_append_drop 1 encoding)
      rw [digitsVal_append] at hsplit
      have htake : encoding.take 1 = [0] := by
        rw [take_succ_getD encoding 0 hlt, henc0]
        rfl
      unfold encVal
      rw [htake] at hsplit ⊢
      rw [digitsVal_singleton] at hsplit ⊢
      simp only [Nat.sub_zero, Nat.zero_add, List.length_drop] at hsplit ⊢
      omega
  | succ it ih =>
    intro carry encoding high hlt hdig hzero hbound
    by_cases hguard : it + 1 > high ∨ carry ≠ 0
    · -- the loop body runs at position `it + 1`
      have hstep : encVal ((carry + 256 * encoding.getD (it + 1) 0) / 36)
          (encoding.set (it + 1) ((carry + 256 * encoding.getD (it + 1) 0) % 36)) it
            = encVal carry encoding (it + 1) := encVal_step carry encoding it hlt
      have hlen2 :
          (encoding.set (it + 1) ((carry + 256 * encoding.getD (it + 1) 0) % 36)).length
            = encoding.length := by
        simp [List.length_set]
      obtain ⟨enc', it', heq, hlen', hdig', hit', hzero', hval'⟩ :=
        ih ((carry + 256 * encoding.getD (it + 1) 0) / 36)
          (encoding.set (it + 1) ((carry + 256 * encoding.getD (it + 1) 0) % 36)) high
          (by omega)
          (by
            intro d hd
            rcases List.mem_or_eq_of_mem_set hd with hd' | hd'
            · exact hdig d hd'
            · rw [hd']
              exact Nat.mod_lt _ (by omega))
          (by
            intro j hjh hji
            rw [getD_set_ne _ _ _ _ (by omega)]
            exact hzero j hjh (by omega))
          (by rw [hstep, hlen2]; exact hbound)
      refine ⟨enc', it', ?_, by rw [hlen', hlen2], hdig', by omega, hzero', ?_⟩
      · show innerLoop (it + 1) carry encoding high = some (enc', it')
        simp only [innerLoop]
        rw [if_pos hguard]
        exact heq
      · rw [hval', hstep]
    · -- the guard fails: `it + 1 ≤ high` and `carry = 0`, the loop exits here
      push_neg at hguard
      obtain ⟨hhigh, hcarry⟩ := hguard
      subst hcarry
      have hcond : ¬(it + 1 > high ∨ (0 : Nat) ≠ 0) := by
        push_neg
        exact ⟨hhigh, rfl⟩
      refine ⟨encoding, it + 1, ?_, rfl, hdig, Nat.le_refl _, ?_, ?_⟩
      · simp only [innerLoop]
        rw [if_neg hcond]
      · intro j hj
        exact hzero j (by omega) hj
      · have hzeros : digitsVal 36 (encoding.take (it + 1 + 1)) = 0 :=
          digitsVal_eq_zero 36 _
            (take_all_zero encoding (it + 1 + 1)
              (fun j hj => hzero j (by omega) (by omega)))
      -- split the buffer at position `it + 2`
        have hsplit := congrArg (digitsVal 36) (List.take_append_drop (it + 1 + 1) encoding)
        rw [digitsVal_append, hzeros] at hsplit
        unfold encVal
        rw [hzeros]
        simp only [List.length_drop] at hsplit ⊢
        omega

theorem getD_replicate_zero : ∀ (n j : Nat), (List.replicate n 0).getD j 0 = 0 := by
  intro n
  induction n with
  | zero => intro j; simp
  | succ n' ih =>
    intro j
    cases j with
    | zero => simp [List.replicate]
    | succ j' =>
      rw [List.replicate]
      exact ih j'

/-- Correctness of the byte-consuming loop: starting from a well-formed buffer,
it succeeds and multiplies the represented value by `256^(bytes remaining)`
while adding their big-endian value, provided the final value fits in
`s - 1` base-36 digits. -/
theorem outerLoop_spec (s : Nat) :
    ∀ (rest encoding : List Nat) (high : Nat),
      encoding.length = s → 1 ≤ s →
      (∀ d ∈ encoding, d < 36) →
      high ≤ s - 1 →
      (∀ j, j ≤ high → encoding.getD j 0 = 0) →
      (∀ d ∈ rest, d < 256) →
      256 ^ rest.length * (digitsVal 36 encoding + 1) ≤ 36 ^ (s - 1) →
      ∃ encoding' high',
        outerLoop s rest encoding high = some (encoding', high') ∧
        encoding'.length = s ∧ (∀ d ∈ encoding', d < 36) ∧ high' ≤ s - 1 ∧
        (∀ j, j ≤ high' → encoding'.getD j 0 = 0) ∧
        digitsVal 36 encoding' =
          digitsVal 36 encoding * 256 ^ rest.length + digitsVal 256 rest := by
  intro rest
  induction rest with
  | nil =>
    intro encoding high hlen hs hdig hhigh hzero _ _
    exact ⟨encoding, high, rfl, hlen, hdig, hhigh, hzero, by simp [digitsVal]⟩
  | cons digit t ih =>
    intro encoding high hlen hs hdig hhigh hzero hbytes hbound
    have hd256 : digit < 256 := hbytes digit (List.mem_cons_self _ _)
    have hbound' : 256 ^ (t.length + 1) * (digitsVal 36 encoding + 1) ≤ 36 ^ (s - 1) := by
      rw [List.length_cons] at hbound
      exact hbound
    have h256le : (256 : Nat) ≤ 256 ^ (t.length + 1) := by
      calc (256 : Nat) = 256 ^ 1 := (pow_one 256).symm
        _ ≤ 256 ^ (t.length + 1) := Nat.pow_le_pow_right (by omega) (by omega)
    have hval36 : encVal digit encoding (s - 1) = digit + 256 * digitsVal 36 encoding := by
      unfold encVal
      have h2 : s - 1 + 1 = s := by omega
      rw [hlen, h2, Nat.sub_self, pow_zero, ← hlen, List.drop_length, List.take_length,
        digitsVal_nil]
      ring
    have hfits : encVal digit encoding (s - 1) < 36 ^ (encoding.length - 1) := by
      rw [hval36, hlen]
      calc digit + 256 * digitsVal 36 encoding
          < 256 * (digitsVal 36 encoding + 1) := by omega
        _ ≤ 256 ^ (t.length + 1) * (digitsVal 36 encoding + 1) :=
            Nat.mul_le_mul_right _ h256le
        _ ≤ 36 ^ (s - 1) := hbound'
    obtain ⟨enc1, high1, heq1, hlen1, hdig1, hhigh1, hzero1, hval1⟩ :=
      innerLoop_spec (s - 1) digit encoding high (by omega) hdig
        (fun j hjh _ => hzero j hjh) hfits
    rw [hval36] at hval1
    obtain ⟨enc', high', heq', hlen', hdig', hhigh', hzero', hval'⟩ :=
      ih enc1 high1 (by rw [hlen1, hlen]) hs hdig1 (by omega) hzero1
        (fun d hd => hbytes d (List.mem_cons_of_mem _ hd))
        (by
          rw [hval1]
          calc 256 ^ t.length * (digit + 256 * digitsVal 36 encoding + 1)
              ≤ 256 ^ t.length * (256 * (digitsVal 36 encoding + 1)) := by
                apply Nat.mul_le_mul_left
                omega
            _ = 256 ^ (t.length + 1) * (digitsVal 36 encoding + 1) := by
                rw [pow_succ]
                ring
            _ ≤ 36 ^ (s - 1) := hbound')
    refine ⟨enc', high', ?_, hlen', hdig', hhigh', hzero', ?_⟩
    · simp only [outerLoop, heq1]
      exact heq'
    · rw [hval', hval1, digitsVal_cons, List.length_cons, pow_succ]
      ring

/-- Digit-level correctness of `id_to_base36` on 32-byte inputs: the
conversion succeeds (no index underflow), the digits are valid base-36 digits,
the leading digit (if any) is nonzero, and the digits read back to the
big-endian value of the input bytes. -/
theorem id_to_base36_digits_spec (source : List Nat) (hlen : source.length = 32)
    (hbytes : ∀ d ∈ source, d < 256) :
    ∃ digits, id_to_base36_digits source = some digits ∧
      (∀ d ∈ digits, d < 36) ∧
      (∀ a, digits.head? = some a → a ≠ 0) ∧
      digitsVal 36 digits = digitsVal 256 source := by
  have hsz : source.length * 2 = 64 := by rw [hlen]
  have hinit : digitsVal 36 (List.replicate 64 0) = 0 :=
    digitsVal_eq_zero 36 _ (fun d hd => List.eq_of_mem_replicate hd)
  obtain ⟨enc', high', heq, hlen', hdig', _, _, hval'⟩ :=
    outerLoop_spec 64 source (List.replicate 64 0) 63
      (List.length_replicate 64 0) (by omega)
      (fun d hd => by rw [List.eq_of_mem_replicate hd]; omega)
      (by omega)
      (fun j _ => getD_replicate_zero 64 j)
      hbytes
      (by rw [hlen, hinit]; norm_num)
  rw [hinit, hlen] at hval'
  refine ⟨enc'.drop (enc'.takeWhile (fun v => v == 0)).length, ?_, ?_, ?_, ?_⟩
  · unfold id_to_base36_digits
    rw [hsz]
    have h63 : (64 : Nat) - 1 = 63 := rfl
    simp only [h63, heq]
  · intro d hd
    rw [drop_length_takeWhile] at hd
    exact hdig' d (mem_dropWhile _ enc' d hd)
  · intro a ha
    rw [drop_length_takeWhile] at ha
    have := head_dropWhile_not _ enc' a ha
    simpa using this
  · rw [drop_length_takeWhile, digitsVal_dropWhile_zero, hval']
    omega

/-- Each of the 36 alphabet characters decodes back to its index. -/
theorem base36CharVal_getD : ∀ d, d < 36 → base36CharVal (BASE36.getD d '0') = d := by
  decide

/-- A nonzero digit is never rendered as the zero symbol. -/
theorem BASE36_getD_ne_zero : ∀ d, d < 36 → d ≠ 0 → BASE36.getD d '0' ≠ '0' := by
  decide

/-- String-level correctness of `id_to_base36` on 32-byte inputs: the
conversion succeeds, the produced string decodes (as a base-36 numeral) to the
big-endian value of the bytes, and its first character is never '0'. -/
theorem id_to_base36_spec (source : List Nat) (hlen : source.length = 32)
    (hbytes : ∀ d ∈ source, d < 256) :
    ∃ s, id_to_base36 source = some s ∧ strVal36 s = bytesVal source ∧
      ∀ c, s.data.head? = some c → c ≠ '0' := by
  obtain ⟨digits, heq, hdig, hhead, hval⟩ := id_to_base36_digits_spec source hlen hbytes
  refine ⟨String.mk (digits.map (fun c => BASE36.getD c '0')), ?_, ?_, ?_⟩
  · unfold id_to_base36
    rw [heq]
  · unfold strVal36 bytesVal
    show digitsVal 36 ((digits.map (fun c => BASE36.getD c '0')).map base36CharVal) = _
    rw [List.map_map]
    have hmap : digits.map (base36CharVal ∘ fun c => BASE36.getD c '0') = digits := by
      have := List.map_congr_left (l := digits)
        (f := base36CharVal ∘ fun c => BASE36.getD c '0') (g := id)
        (fun d hd => base36CharVal_getD d (hdig d hd))
      rw [this, List.map_id]
    rw [hmap, hval]
  · intro c hc
    cases digits with
    | nil => simp at hc
    | cons a t =>
      have hca : c = BASE36.getD a '0' := by
        have : (String.mk ((a :: t).map (fun c => BASE36.getD c '0'))).data.head?
            = some (BASE36.getD a '0') := rfl
        rw [this] at hc
        exact (Option.some.inj hc).symm
      have ha0 : a ≠ 0 := hhead a rfl
      have ha36 : a < 36 := hdig a (List.mem_cons_self a t)
      rw [hca]
      exact BASE36_getD_ne_zero a ha36 ha0

/-- The byte decomposition of
`0x05fb8843a23017cbf1c907bd559a2d6191b77bc595d4c83853cca14cc784c0a8`, the
object id of the repository's own `test_id_to_base36` unit test. -/
def testIdBytes : List Nat :=
  [5, 251, 136, 67, 162, 48, 23, 203, 241, 201, 7, 189, 85, 154, 45, 97, 145, 183,
   123, 197, 149, 212, 200, 56, 83, 204, 161, 76, 199, 132, 192, 168]

/-- The embedding reproduces the repository's unit test
(`test_id_to_base36`) exactly. -/
theorem test_id_to_base36 :
    id_to_base36 testIdBytes
      = some "5d8t4gd5q8x4xcfyctpygyr5pnk85x54o7ndeq2j4pg9l7rmw" := by
  set_option maxRecDepth 100000 in decide

/-! ## Pagination (src/site-builder/src/util.rs, lines 98–127)

`Page<T, C>` is the SDK's page type: items, continuation cursor, has-more
flag.  The `FnMut` closure of the Rust code is embedded as a pure function of
the invocation index (capturing any internal mutable state of the closure) and
the cursor the loop passes it.  The `while cont` loop may diverge if the
closure keeps returning `has_next_page = true`, so the embedding carries fuel;
`none` means the loop did not finish within the fuel. -/

structure Page (T C : Type) where
  data : List T
  next_cursor : Option C
  has_next_page : Bool

/-- The `while cont { ... }` loop body: fetch a page (`?` propagates the
error), push its items, adopt its cursor, continue while `has_next_page`. -/
def paginationLoop {T C E : Type} (closure : Nat → Option C → Except E (Page T C)) :
    Nat → Nat → Option C → List (List T) → Option (Except E (List T))
  | 0, _, _, _ => none
  | fuel + 1, idx, cursor, iterators =>
    match closure idx cursor with
    | Except.error e => some (Except.error e)
    | Except.ok page =>
      if page.has_next_page then
        paginationLoop closure fuel (idx + 1) page.next_cursor (iterators ++ [page.data])
      else
        some (Except.ok (iterators ++ [page.data]).flatten)

/-- `handle_pagination_with_cursor`: run the loop from the given cursor with
an empty accumulator, and flatten the collected pages. -/
def handle_pagination_with_cursor {T C E : Type}
    (closure : Nat → Option C → Except E (Page T C)) (cursor : Option C)
    (fuel : Nat) : Option (Except E (List T)) :=
  paginationLoop closure fuel 0 cursor []

/-- `handle_pagination`: same loop started with no cursor. -/
def handle_pagination {T C E : Type}
    (closure : Nat → Option C → Except E (Page T C)) (fuel : Nat) :
    Option (Except E (List T)) :=
  handle_pagination_with_cursor closure none fuel

/-- If the closure serves the pages of `ps` in order (the last one and only
the last one with `has_next_page = false`), the loop terminates and returns
the accumulated pages' items concatenated in fetch order. -/
theorem paginationLoop_ok {T C E : Type} (closure : Nat → Option C → Except E (Page T C))
    (dflt : Page T C) :
    ∀ (ps : List (Page T C)) (idx fuel : Nat) (cursor : Option C) (acc : List (List T)),
      ps ≠ [] →
      ps.length ≤ fuel →
      (∀ j c, j < ps.length → closure (idx + j) c = Except.ok (ps.getD j dflt)) →
      (∀ j, j + 1 < ps.length → (ps.getD j dflt).has_next_page = true) →
      (ps.getD (ps.length - 1) dflt).has_next_page = false →
      paginationLoop closure fuel idx cursor acc
        = some (Except.ok (acc ++ ps.map Page.data).flatten) := by
  intro ps
  induction ps with
  | nil =>
    intro idx fuel cursor acc hne
    exact absurd rfl hne
  | cons p t ih =>
    intro idx fuel cursor acc _ hfuel hclosure hnext hlast
    obtain ⟨f, rfl⟩ : ∃ f, fuel = f + 1 := by
      have : 1 ≤ fuel := le_trans (by simp) hfuel
      exact ⟨fuel - 1, by omega⟩
    have hc0 : closure idx cursor = Except.ok p := by
      have := hclosure 0 cursor (by simp)
      simpa using this
    cases t with
    | nil =>
      have hp : p.has_next_page = false := by simpa using hlast
      simp [paginationLoop, hc0, hp]
    | cons q u =>
      have hp : p.has_next_page = true := by
        have := hnext 0 (by simp)
        simpa using this
      have hrec := ih (idx + 1) f p.next_cursor (acc ++ [p.data])
        (by simp)
        (by simp at hfuel ⊢; omega)
        (fun j c hj => by
          have hshift : idx + 1 + j = idx + (j + 1) := by omega
          have := hclosure (j + 1) c (by simp at hj ⊢; omega)
          rw [hshift]
          simpa using this)
        (fun j hj => by
          have := hnext (j + 1) (by simp at hj ⊢; omega)
          simpa using this)
        (by
          have := hlast
          simpa using this)
      simp only [paginationLoop, hc0, hp, if_true]
      rw [hrec]
      simp [List.append_assoc]

/-- If the first `ps.length` fetches succeed with `has_next_page = true` and
the next fetch fails with `e`, the loop returns exactly `error e`. -/
theorem paginationLoop_error {T C E : Type} (closure : Nat → Option C → Except E (Page T C))
    (dflt : Page T C) (e : E) :
    ∀ (ps : List (Page T C)) (idx fuel : Nat) (cursor : Option C) (acc : List (List T)),
      ps.length + 1 ≤ fuel →
      (∀ j c, j < ps.length → closure (idx + j) c = Except.ok (ps.getD j dflt)) →
      (∀ j, j < ps.length → (ps.getD j dflt).has_next_page = true) →
      (∀ c, closure (idx + ps.length) c = Except.error e) →
      paginationLoop closure fuel idx cursor acc = some (Except.error e) := by
  intro ps
  induction ps with
  | nil =>
    intro idx fuel cursor acc hfuel _ _ herr
    obtain ⟨f, rfl⟩ : ∃ f, fuel = f + 1 := ⟨fuel - 1, by omega⟩
    have h0 : closure idx cursor = Except.error e := by
      have := herr cursor
      simpa using this
    simp [paginationLoop, h0]
  | cons p t ih =>
    intro idx fuel cursor acc hfuel hclosure hnext herr
    obtain ⟨f, rfl⟩ : ∃ f, fuel = f + 1 := ⟨fuel - 1, by omega⟩
    have hc0 : closure idx cursor = Except.ok p := by
      have := hclosure 0 cursor (by simp)
      simpa using this
    have hp : p.has_next_page = true := by
      have := hnext 0 (by simp)
      simpa using this
    have hrec := ih (idx + 1) f p.next_cursor (acc ++ [p.data])
      (by simp at hfuel ⊢; omega)
      (fun j c hj => by
        have hshift : idx + 1 + j = idx + (j + 1) := by omega
        have := hclosure (j + 1) c (by simp at hj ⊢; omega)
        rw [hshift]
        simpa using this)
      (fun j hj => by
        have := hnext (j + 1) (by simp at hj ⊢; omega)
        simpa using this)
      (fun c => by
        have hshift : idx + 1 + t.length = idx + (t.length + 1) := by omega
        have := herr c
        rw [hshift]
        simpa using this)
    simp only [paginationLoop, hc0, hp, if_true]
    exact hrec

/-! ## Transaction submission and object lookup
(src/site-builder/src/util.rs, lines 22–96 and 161–172)

The network capabilities are passed as `Except`-valued inputs:
`getGasPrice` models `read_api().get_reference_gas_price()`,
`signTransaction` models `keystore.sign_secure` on the transaction data
assembled from the gas price, and `executeTransaction` models
`quorum_driver_api().execute_transaction_block` on the signed envelope.
The identifier and address types are abstracted to `Nat`; only equality on
them matters to this code. -/

abbrev ObjectID := Nat
abbrev SuiAddress := Nat

/-- `SuiExecutionStatus`: success, or failure carrying the remote message. -/
inductive SuiExecutionStatus where
  | Success : SuiExecutionStatus
  | Failure : String → SuiExecutionStatus

/-- `sui_types::object::Owner`. -/
inductive Owner where
  | AddressOwner : SuiAddress → Owner
  | ObjectOwner : SuiAddress → Owner
  | Shared : Nat → Owner
  | Immutable : Owner

/-- `impl PartialEq<SuiAddress> for Owner`: an owner record equals an address
exactly when it is `AddressOwner` of that address. -/
def Owner.eqAddress : Owner → SuiAddress → Bool
  | Owner.AddressOwner a, address => a == address
  | _, _ => false

/-- An object reference: identifier, version, digest. -/
structure SuiObjectRef where
  object_id : ObjectID
  version : Nat
  digest : Nat

/-- One entry of the effects' `created` list: owner plus reference. -/
structure OwnedObjectRef where
  owner : Owner
  reference : SuiObjectRef

/-- `SuiTransactionBlockEffects`, restricted to the fields this code reads:
the execution status and the created objects. -/
structure SuiTransactionBlockEffects where
  status : SuiExecutionStatus
  created : List OwnedObjectRef

/-- `SuiTransactionBlockResponse`, restricted to the fields this code reads. -/
structure SuiTransactionBlockResponse where
  confirmed_local_execution : Option Bool
  effects : Option SuiTransactionBlockEffects

/-- `sui_types::transaction::ObjectArg`, restricted to the variant built
here. -/
inductive ObjectArg where
  | SharedObject : (id : ObjectID) → (initial_shared_version : Nat) →
      (mutable : Bool) → ObjectArg

/-- `sui_types::transaction::CallArg`, restricted to the variant built here. -/
inductive CallArg where
  | Object : ObjectArg → CallArg

/-- `sign_and_send_ptb`: query the gas price, sign, execute (each `?`
propagates the transport error), then `ensure!` the confirmation flag, then
unwrap the effects (`ok_or_else`) and match their status. -/
def sign_and_send_ptb (getGasPrice : Except String Nat)
    (signTransaction : Nat → Except String String)
    (executeTransaction : String → Except String SuiTransactionBlockResponse) :
    Except String SuiTransactionBlockResponse :=
  match getGasPrice with
  | Except.error e => Except.error e
  | Except.ok gas_price =>
    match signTransaction gas_price with
    | Except.error e => Except.error e
    | Except.ok signature =>
      match executeTransaction signature with
      | Except.error e => Except.error e
      | Except.ok response =>
        if response.confirmed_local_execution = some true then
          match response.effects with
          | none => Except.error "No transaction effects in response"
          | some effects =>
            match effects.status with
            | SuiExecutionStatus.Success => Except.ok response
            | SuiExecutionStatus.Failure error =>
              Except.error ("Error in transaction execution: " ++ error)
        else
          Except.error "Transaction execution was not confirmed"

/-- `call_arg_from_shared_object_id`: look up the object's owner (`?`
propagates the transport error; `owner()` yields an `Option<Owner>`), then the
`let Some(Owner::Shared { .. }) = … else bail!` pattern.  The function takes
no submission capability at all — mirroring the source, which performs no
submission. -/
def call_arg_from_shared_object_id (getOwner : Except String (Option Owner))
    (id : ObjectID) (mutable : Bool) : Except String CallArg :=
  match getOwner with
  | Except.error e => Except.error e
  | Except.ok (some (Owner.Shared initial_shared_version)) =>
    Except.ok (CallArg.Object (ObjectArg.SharedObject id initial_shared_version mutable))
  | Except.ok _ =>
    Except.error "Trying to get the initial version of a non-shared object"

/-- `get_site_id_from_response`: find the created object owned by `address`.
The source calls `.expect("Could not find the object ID for the created
blocksite.")` on the `find` result — a panic, not an `Err`; the panic is
modelled by `none`.  The `Ok` wrapping of the found id is the only value the
function ever returns normally. -/
def get_site_id_from_response (address : SuiAddress)
    (effects : SuiTransactionBlockEffects) : Option (Except String ObjectID) :=
  match effects.created.find? (fun c => c.owner.eqAddress address) with
  | some c => some (Except.ok c.reference.object_id)
  | none => none

/-! ## Claims about the base conversion -/

/-- C1: for every 32-byte sequence (the fixed width of an object id), the
string returned by `id_to_base36`, read as a base-36 numeral over the alphabet
0–9 then a–z, denotes exactly the unsigned big-endian arbitrary-precision
integer value of the input bytes.  The embedding computes on `Nat`, i.e. exact
integer arithmetic with no overflow. -/
theorem C1_base36_exact (source : List Nat) (hlen : source.length = 32)
    (hbytes : ∀ d ∈ source, d < 256) :
    ∃ s, id_to_base36 source = some s ∧ strVal36 s = bytesVal source := by
  obtain ⟨s, h1, h2, _⟩ := id_to_base36_spec source hlen hbytes
  exact ⟨s, h1, h2⟩

/-- Witness for C1 at the repository's own test vector. -/
theorem C1_witness :
    (testIdBytes.length = 32 ∧ ∀ d ∈ testIdBytes, d < 256) ∧
      ∃ s, id_to_base36 testIdBytes = some s ∧ strVal36 s = bytesVal testIdBytes :=
  ⟨⟨by decide, by decide⟩, C1_base36_exact testIdBytes (by decide) (by decide)⟩

/-- C2 (counterexample): the claim states that an all-zero input produces
exactly one zero-symbol character and that the output is never empty.  On the
all-zero 32-byte input the code leaves the whole buffer zero, the computed
`skip` equals the buffer length, and the returned string is EMPTY — not a
single `'0'`. -/
theorem C2_counterexample :
    id_to_base36 (List.replicate 32 0) = some "" ∧ "" ≠ "0" := by
  exact ⟨by decide, by decide⟩

/-- C2 (amended): for every 32-byte input the output never begins with the
zero symbol `'0'` — in particular there are never leading zero-symbols — but
the all-zero input produces the EMPTY string rather than a single zero
symbol. -/
theorem C2_no_leading_zero (source : List Nat) (hlen : source.length = 32)
    (hbytes : ∀ d ∈ source, d < 256) :
    ∃ s, id_to_base36 source = some s ∧ (∀ c, s.data.head? = some c → c ≠ '0') ∧
      (source = List.replicate 32 0 → s = "") := by
  obtain ⟨s, h1, _, h3⟩ := id_to_base36_spec source hlen hbytes
  refine ⟨s, h1, h3, ?_⟩
  intro h0
  subst h0
  have hz : id_to_base36 (List.replicate 32 0) = some "" := by decide
  rw [hz] at h1
  exact (Option.some.inj h1).symm

/-- Witness for the amended C2 at the repository's test vector. -/
theorem C2_witness :
    (testIdBytes.length = 32 ∧ ∀ d ∈ testIdBytes, d < 256) ∧
      ∃ s, id_to_base36 testIdBytes = some s ∧
        (∀ c, s.data.head? = some c → c ≠ '0') ∧
        (testIdBytes = List.replicate 32 0 → s = "") :=
  ⟨⟨by decide, by decide⟩, C2_no_leading_zero testIdBytes (by decide) (by decide)⟩

/-- C8: `id_to_base36` is deterministic (it is a pure function: the same
bytes always produce the same output), and injective within the fixed 32-byte
width: distinct byte sequences produce distinct outputs. -/
theorem C8_deterministic_injective :
    (∀ source : List Nat, id_to_base36 source = id_to_base36 source) ∧
      ∀ b₁ b₂ : List Nat, b₁.length = 32 → b₂.length = 32 →
        (∀ d ∈ b₁, d < 256) → (∀ d ∈ b₂, d < 256) → b₁ ≠ b₂ →
        id_to_base36 b₁ ≠ id_to_base36 b₂ := by
  refine ⟨fun _ => rfl, ?_⟩
  intro b₁ b₂ h₁ h₂ hb₁ hb₂ hne heq
  obtain ⟨s₁, e₁, v₁, _⟩ := id_to_base36_spec b₁ h₁ hb₁
  obtain ⟨s₂, e₂, v₂, _⟩ := id_to_base36_spec b₂ h₂ hb₂
  rw [e₁, e₂] at heq
  have hs : s₁ = s₂ := Option.some.inj heq
  apply hne
  apply digitsVal_inj 256 b₁ b₂ (by omega) hb₁ hb₂
  unfold bytesVal at v₁ v₂
  rw [← v₁, ← v₂, hs]

/-- Witness for C8: the all-zero id and the test-vector id map to different
strings. -/
theorem C8_witness :
    List.replicate 32 0 ≠ testIdBytes ∧
      id_to_base36 (List.replicate 32 0) ≠ id_to_base36 testIdBytes :=
  ⟨by decide, C8_deterministic_injective.2 (List.replicate 32 0) testIdBytes
    (by decide) (by decide) (by decide) (by decide) (by decide)⟩

/-- C9: on every 32-byte input `id_to_base36` is total and safe — the inner
loop's index never under-runs position 0 (the carry is exhausted before that,
because at most 2 base-36 digits are produced per input byte) and every buffer
access stays in bounds, so the function returns a value (`Ok` in the source)
rather than panicking, and the `Err` branch of its `Result` type is never
taken. -/
theorem C9_total_safe (source : List Nat) (hlen : source.length = 32)
    (hbytes : ∀ d ∈ source, d < 256) :
    (id_to_base36 source).isSome = true := by
  obtain ⟨s, h1, _⟩ := id_to_base36_spec source hlen hbytes
  rw [h1]
  rfl

/-- Witness for C9 at the repository's test vector. -/
theorem C9_witness :
    (testIdBytes.length = 32 ∧ ∀ d ∈ testIdBytes, d < 256) ∧
      (id_to_base36 testIdBytes).isSome = true :=
  ⟨⟨by decide, by decide⟩, C9_total_safe testIdBytes (by decide) (by decide)⟩

/-! ## Claims about the pagination aggregator -/

/-- C3: for every finite sequence of `N` pages (each page `i < N` with
`has_next_page = true`, page `N` with `has_next_page = false`) served in order
by the query function, `handle_pagination_with_cursor` yields exactly the
concatenation of the pages' item lists in fetch order, each page's internal
order preserved; in particular the total length is the sum of the page
sizes. -/
theorem C3_pagination_concat {T C E : Type}
    (closure : Nat → Option C → Except E (Page T C))
    (pages : List (Page T C)) (dflt : Page T C) (cursor : Option C) (fuel : Nat)
    (hne : pages ≠ [])
    (hfuel : pages.length ≤ fuel)
    (hclosure : ∀ j c, j < pages.length → closure j c = Except.ok (pages.getD j dflt))
    (hnext : ∀ j, j + 1 < pages.length → (pages.getD j dflt).has_next_page = true)
    (hlast : (pages.getD (pages.length - 1) dflt).has_next_page = false) :
    handle_pagination_with_cursor closure cursor fuel
        = some (Except.ok (pages.map Page.data).flatten) ∧
      ((pages.map Page.data).flatten).length
        = (pages.map (fun p => p.data.length)).sum := by
  constructor
  · unfold handle_pagination_with_cursor
    rw [paginationLoop_ok closure dflt pages 0 fuel cursor [] hne hfuel
      (fun j c hj => by simpa using hclosure j c hj) hnext hlast]
    simp
  · rw [List.length_flatten, List.map_map]
    rfl

/-- A two-page run used to instantiate the pagination claims. -/
def pageA : Page Nat Nat := ⟨[1, 2], some 7, true⟩

def pageB : Page Nat Nat := ⟨[3], none, false⟩

def twoPages : List (Page Nat Nat) := [pageA, pageB]

def twoPageClosure (j : Nat) (_ : Option Nat) : Except Nat (Page Nat Nat) :=
  Except.ok (twoPages.getD j pageB)

/-- Witness for C3: two pages of sizes 2 and 1 are aggregated into
`[1, 2, 3]`. -/
theorem C3_witness :
    twoPages ≠ [] ∧
      handle_pagination_with_cursor twoPageClosure none 2
          = some (Except.ok (twoPages.map Page.data).flatten) ∧
        ((twoPages.map Page.data).flatten).length
          = (twoPages.map (fun p => p.data.length)).sum :=
  ⟨List.cons_ne_nil _ _,
    C3_pagination_concat twoPageClosure twoPages pageB none 2
      (List.cons_ne_nil _ _) (Nat.le_refl 2)
      (fun _ _ _ => rfl)
      (fun j hj => by
        have hj2 : j = 0 := by
          have : twoPages.length = 2 := rfl
          omega
        rw [hj2]
        rfl)
      rfl⟩

/-- C5: if the first `j` fetches succeed (with more pages announced) and the
`j`-th (0-based) fetch fails with error `e`, the aggregation returns exactly
`e` and yields no items at all — no partial results and no retry of the
failing page. -/
theorem C5_pagination_error_aborts {T C E : Type}
    (closure : Nat → Option C → Except E (Page T C))
    (okPages : List (Page T C)) (dflt : Page T C) (e : E) (cursor : Option C)
    (fuel : Nat)
    (hfuel : okPages.length + 1 ≤ fuel)
    (hclosure : ∀ j c, j < okPages.length → closure j c = Except.ok (okPages.getD j dflt))
    (hnext : ∀ j, j < okPages.length → (okPages.getD j dflt).has_next_page = true)
    (herr : ∀ c, closure okPages.length c = Except.error e) :
    handle_pagination_with_cursor closure cursor fuel = some (Except.error e) := by
  unfold handle_pagination_with_cursor
  exact paginationLoop_error closure dflt e okPages 0 fuel cursor [] hfuel
    (fun j c hj => by simpa using hclosure j c hj) hnext
    (fun c => by simpa using herr c)

/-- The closure of the C5 witness: the first fetch succeeds (announcing more
pages), the second fails with error `42`. -/
def failingClosure (j : Nat) (_ : Option Nat) : Except Nat (Page Nat Nat) :=
  if j = 0 then Except.ok pageA else Except.error 42

/-- Witness for C5: the error of the second fetch is returned verbatim, with
no items. -/
theorem C5_witness :
    handle_pagination_with_cursor failingClosure none 2 = some (Except.error 42) :=
  C5_pagination_error_aborts failingClosure [pageA] pageA 42 none 2
    (Nat.le_refl 2)
    (fun j c hj => by
      have hj0 : j = 0 := by
        have : [pageA].length = 1 := rfl
        omega
      rw [hj0]
      rfl)
    (fun j hj => by
      have hj0 : j = 0 := by
        have : [pageA].length = 1 := rfl
        omega
      rw [hj0]
      rfl)
    (fun _ => rfl)

/-! ## Claims about transaction submission and object lookup -/

/-- C4: for `sign_and_send_ptb` (once the gas-price query, signing, and
execution calls themselves succeed and yield `response`): if the response
reports confirmed local execution and a success effects status, the result is
`Ok` with the full response (effects included); if the confirmation flag is
not `Some(true)`, the result is the unconfirmed-execution error regardless of
the effects status; if confirmation is set and the effects status is a failure
with message `m`, the result is the execution-failure error carrying `m`
verbatim. -/
theorem C4_submit_outcomes (getGasPrice : Except String Nat)
    (signTransaction : Nat → Except String String)
    (executeTransaction : String → Except String SuiTransactionBlockResponse)
    (gas_price : Nat) (signature : String) (response : SuiTransactionBlockResponse)
    (h1 : getGasPrice = Except.ok gas_price)
    (h2 : signTransaction gas_price = Except.ok signature)
    (h3 : executeTransaction signature = Except.ok response) :
    ((response.confirmed_local_execution = some true →
      ∀ effects, response.effects = some effects →
        effects.status = SuiExecutionStatus.Success →
        sign_and_send_ptb getGasPrice signTransaction executeTransaction
          = Except.ok response) ∧
    (response.confirmed_local_execution ≠ some true →
      sign_and_send_ptb getGasPrice signTransaction executeTransaction
        = Except.error "Transaction execution was not confirmed") ∧
    (response.confirmed_local_execution = some true →
      ∀ effects m, response.effects = some effects →
        effects.status = SuiExecutionStatus.Failure m →
        sign_and_send_ptb getGasPrice signTransaction executeTransaction
          = Except.error ("Error in transaction execution: " ++ m))) := by
  refine ⟨?_, ?_, ?_⟩
  · intro hconf effects heff hst
    simp [sign_and_send_ptb, h1, h2, h3, hconf, heff, hst]
  · intro hconf
    simp [sign_and_send_ptb, h1, h2, h3, hconf]
  · intro hconf effects m heff hst
    simp [sign_and_send_ptb, h1, h2, h3, hconf, heff, hst]

/-- A confirmed, successful response used as the C4 witness. -/
def okResponse : SuiTransactionBlockResponse :=
  ⟨some true, some ⟨SuiExecutionStatus.Success, []⟩⟩

/-- Witness for C4: with all capabilities succeeding and a confirmed success
response, the result is `Ok` with that response. -/
theorem C4_witness :
    sign_and_send_ptb (Except.ok 1) (fun _ => Except.ok "sig")
        (fun _ => Except.ok okResponse)
      = Except.ok okResponse :=
  (C4_submit_outcomes (Except.ok 1) (fun _ => Except.ok "sig")
      (fun _ => Except.ok okResponse) 1 "sig" okResponse rfl rfl rfl).1
    rfl ⟨SuiExecutionStatus.Success, []⟩ rfl rfl

/-- C10: if the response reports confirmed local execution but carries no
effects at all, `sign_and_send_ptb` returns the error "No transaction effects
in response" rather than `Ok` — a case distinct from the unconfirmed and
execution-failure errors. -/
theorem C10_no_effects_error (getGasPrice : Except String Nat)
    (signTransaction : Nat → Except String String)
    (executeTransaction : String → Except String SuiTransactionBlockResponse)
    (gas_price : Nat) (signature : String) (response : SuiTransactionBlockResponse)
    (h1 : getGasPrice = Except.ok gas_price)
    (h2 : signTransaction gas_price = Except.ok signature)
    (h3 : executeTransaction signature = Except.ok response)
    (hconf : response.confirmed_local_execution = some true)
    (heff : response.effects = none) :
    sign_and_send_ptb getGasPrice signTransaction executeTransaction
      = Except.error "No transaction effects in response" := by
  simp [sign_and_send_ptb, h1, h2, h3, hconf, heff]

/-- Witness for C10: a confirmed response with `effects = None`. -/
theorem C10_witness :
    sign_and_send_ptb (Except.ok 1) (fun _ => Except.ok "sig")
        (fun _ => Except.ok ⟨some true, none⟩)
      = Except.error "No transaction effects in response" :=
  C10_no_effects_error (Except.ok 1) (fun _ => Except.ok "sig")
    (fun _ => Except.ok ⟨some true, none⟩) 1 "sig" ⟨some true, none⟩
    rfl rfl rfl rfl rfl

/-- C6 (counterexample): the claim states that when no created resource is
owned by the given address, the missing-created-object condition is returned
to the caller as an error value.  On a response with an empty `created` list
the source instead panics (`.expect(...)`), modelled by `none`: no error value
is ever produced. -/
theorem C6_counterexample :
    get_site_id_from_response 0 ⟨SuiExecutionStatus.Success, []⟩ = none ∧
      ¬∃ msg, get_site_id_from_response 0 ⟨SuiExecutionStatus.Success, []⟩
          = some (Except.error msg) := by
  refine ⟨rfl, ?_⟩
  rintro ⟨msg, h⟩
  exact Option.noConfusion h

/-- C6 (amended): when no created resource among the effects is owned by the
given address, `get_site_id_from_response` panics (the `.expect` call, `none`
in the embedding) — the condition aborts the caller instead of being returned
as an error value, and the function never returns `Err`. -/
theorem C6_missing_created_panics (address : SuiAddress)
    (effects : SuiTransactionBlockEffects)
    (h : ∀ c ∈ effects.created, c.owner.eqAddress address = false) :
    get_site_id_from_response address effects = none := by
  unfold get_site_id_from_response
  have hfind : effects.created.find? (fun c => c.owner.eqAddress address) = none := by
    rw [List.find?_eq_none]
    intro c hc
    rw [h c hc]
    exact Bool.false_ne_true
  rw [hfind]

/-- Witness for the amended C6: effects whose only created object belongs to
a different address. -/
theorem C6_witness :
    (∀ c ∈ ([⟨Owner.AddressOwner 9, ⟨4, 0, 0⟩⟩] : List OwnedObjectRef),
        c.owner.eqAddress 5 = false) ∧
      get_site_id_from_response 5
          ⟨SuiExecutionStatus.Success, [⟨Owner.AddressOwner 9, ⟨4, 0, 0⟩⟩]⟩ = none :=
  ⟨by decide,
    C6_missing_created_panics 5
      ⟨SuiExecutionStatus.Success, [⟨Owner.AddressOwner 9, ⟨4, 0, 0⟩⟩]⟩ (by decide)⟩

/-- C7: `call_arg_from_shared_object_id` returns the ownership-shape-mismatch
error whenever the looked-up owner record is not `Shared` — using only the
object lookup, since the function takes no submission capability and so no
submission can occur — and it returns a call argument only when the owner is
`Shared`, in which case the argument is the `SharedObject` built from the id,
the initial shared version, and the mutability flag. -/
theorem C7_shared_shape_check (getOwner : Except String (Option Owner))
    (id : ObjectID) (mutable : Bool) :
    ((∀ owner, getOwner = Except.ok owner →
      (∀ v, owner ≠ some (Owner.Shared v)) →
      call_arg_from_shared_object_id getOwner id mutable
        = Except.error "Trying to get the initial version of a non-shared object") ∧
    (∀ arg, call_arg_from_shared_object_id getOwner id mutable = Except.ok arg →
      ∃ v, getOwner = Except.ok (some (Owner.Shared v)) ∧
        arg = CallArg.Object (ObjectArg.SharedObject id v mutable))) := by
  constructor
  · intro owner hok hnot
    subst hok
    match owner with
    | none => rfl
    | some (Owner.AddressOwner a) => rfl
    | some (Owner.ObjectOwner a) => rfl
    | some Owner.Immutable => rfl
    | some (Owner.Shared v) => exact absurd rfl (hnot v)
  · intro arg harg
    match hgo : getOwner with
    | Except.error e => exact Except.noConfusion harg
    | Except.ok none => exact Except.noConfusion harg
    | Except.ok (some (Owner.AddressOwner a)) => exact Except.noConfusion harg
    | Except.ok (some (Owner.ObjectOwner a)) => exact Except.noConfusion harg
    | Except.ok (some Owner.Immutable) => exact Except.noConfusion harg
    | Except.ok (some (Owner.Shared v)) => exact ⟨v, rfl, (Except.ok.inj harg).symm⟩

/-- Witness for C7: an exclusively-owned object yields the mismatch error
before anything else can happen. -/
theorem C7_witness :
    call_arg_from_shared_object_id (Except.ok (some (Owner.AddressOwner 3))) 8 true
      = Except.error "Trying to get the initial version of a non-shared object" :=
  (C7_shared_shape_check (Except.ok (some (Owner.AddressOwner 3))) 8 true).1
    (some (Owner.AddressOwner 3)) rfl (fun _v h => Option.noConfusion h
      (fun h2 => Owner.noConfusion h2))

end WalrusSites
